import Mathlib

/-!
Verification development for the sbobina_manager scheduling core.

The repository consists of `models.py` (dataclasses `User`, `Lesson`, `Shift`
with dict (de)serialization), and `utils.py` (the Excel timetable parser
`parse_excel_schedule` and the allocation engine `ShiftOptimizer`).  This file
gives a shallow embedding of those parts and proves properties about them.

Modelling conventions:
- Python `datetime.date` values are triples of naturals (year, month, day);
  the library guarantees `1 <= year <= 9999`, `1 <= month <= 12` and
  `1 <= day <= daysInMonth year month`, captured by `dateValid`.
- Python `float` durations are rationals.  All comparisons performed by the
  code (`<= 2`, `<= 3`) are exact at the values that can occur (multiples of
  a minute) and at the boundary values of interest, so `Rat` is faithful.
- Mutation of the staff roster is modelled by explicit state passing: the
  roster is a `List User`, and staff object references are roster indices.
- `random.shuffle` is modelled by an arbitrary reordering function supplied
  as a parameter; theorems that need it assume it permutes its input.
-/

/-- Calendar date, as in Python `datetime.date` (year, month, day). -/
structure Date where
  year : Nat
  month : Nat
  day : Nat
deriving DecidableEq, Repr

/-- Python `calendar`-style leap-year test, as used by `datetime.date`. -/
def isLeapYear (y : Nat) : Bool :=
  (y % 4 == 0 && y % 100 != 0) || y % 400 == 0

/-- Number of days in a month, as validated by the `datetime.date` constructor. -/
def daysInMonth (y m : Nat) : Nat :=
  if m == 2 then (if isLeapYear y then 29 else 28)
  else if m == 4 || m == 6 || m == 9 || m == 11 then 30
  else 31

/-- Validity condition enforced by the Python `datetime.date` constructor
(`date(year, month, day)` raises `ValueError` outside these bounds). -/
def dateValid (y m d : Nat) : Bool :=
  decide (1 ≤ y ∧ y ≤ 9999 ∧ 1 ≤ m ∧ m ≤ 12 ∧ 1 ≤ d ∧ d ≤ daysInMonth y m)

/-- A `Date` whose components satisfy the `datetime.date` bounds. -/
def Date.valid (d : Date) : Bool := dateValid d.year d.month d.day

def digitChar (n : Nat) : Char := Char.ofNat (48 + n)

def digitVal (c : Char) : Nat := c.toNat - 48

def isDigitChar (c : Char) : Bool := decide (48 ≤ c.toNat ∧ c.toNat ≤ 57)

/-- Two-digit zero-padded decimal rendering (`%02d` for values below 100). -/
def pad2Chars (n : Nat) : List Char := [digitChar (n / 10 % 10), digitChar (n % 10)]

/-- Four-digit zero-padded decimal rendering (`%04d` for values below 10000). -/
def pad4Chars (n : Nat) : List Char :=
  [digitChar (n / 1000 % 10), digitChar (n / 100 % 10),
   digitChar (n / 10 % 10), digitChar (n % 10)]

/-- Python `date.isoformat()`: `YYYY-MM-DD`.  For the years `datetime.date`
admits (at most 9999) the zero-padded rendering is exactly four digits. -/
def Date.isoformat (d : Date) : String :=
  String.mk (pad4Chars d.year ++ '-' :: (pad2Chars d.month ++ '-' :: pad2Chars d.day))

/-- Python `date.fromisoformat` on the canonical `YYYY-MM-DD` form: parses the
ten-character string and validates the ranges the `date` constructor enforces,
failing (raising, modelled as `none`) otherwise. -/
def fromisoChars : List Char → Option Date
  | [y1, y2, y3, y4, '-', m1, m2, '-', d1, d2] =>
    if isDigitChar y1 && isDigitChar y2 && isDigitChar y3 && isDigitChar y4 &&
       isDigitChar m1 && isDigitChar m2 && isDigitChar d1 && isDigitChar d2 then
      let y := 1000 * digitVal y1 + 100 * digitVal y2 + 10 * digitVal y3 + digitVal y4
      let m := 10 * digitVal m1 + digitVal m2
      let d := 10 * digitVal d1 + digitVal d2
      if dateValid y m d then some ⟨y, m, d⟩ else none
    else none
  | _ => none

def Date.fromisoformat (s : String) : Option Date := fromisoChars s.data

theorem digitChar_val : ∀ r, r < 10 →
    isDigitChar (digitChar r) = true ∧ digitVal (digitChar r) = r := by decide

theorem fromisoformat_isoformat (y m d : Nat) (h : dateValid y m d = true) :
    Date.fromisoformat (Date.isoformat ⟨y, m, d⟩) = some ⟨y, m, d⟩ := by
  have hv : 1 ≤ y ∧ y ≤ 9999 ∧ 1 ≤ m ∧ m ≤ 12 ∧ 1 ≤ d ∧ d ≤ daysInMonth y m := by
    simpa [dateValid] using h
  have h10 : ∀ r : Nat, r % 10 < 10 := fun r => Nat.mod_lt _ (by omega)
  have dig : ∀ r : Nat, isDigitChar (digitChar (r % 10)) = true ∧
      digitVal (digitChar (r % 10)) = r % 10 := fun r => digitChar_val _ (h10 r)
  show fromisoChars (String.mk (pad4Chars y ++ '-' ::
      (pad2Chars m ++ '-' :: pad2Chars d))).data = some ⟨y, m, d⟩
  have hdata : (String.mk (pad4Chars y ++ '-' :: (pad2Chars m ++ '-' :: pad2Chars d))).data
      = [digitChar (y / 1000 % 10), digitChar (y / 100 % 10), digitChar (y / 10 % 10),
         digitChar (y % 10), '-', digitChar (m / 10 % 10), digitChar (m % 10), '-',
         digitChar (d / 10 % 10), digitChar (d % 10)] := rfl
  rw [hdata]
  simp only [fromisoChars, (dig (y / 1000)).1, (dig (y / 100)).1, (dig (y / 10)).1,
    (dig y).1, (dig (m / 10)).1, (dig m).1, (dig (d / 10)).1, (dig d).1,
    Bool.and_self, if_true, (dig (y / 1000)).2, (dig (y / 100)).2, (dig (y / 10)).2,
    (dig y).2, (dig (m / 10)).2, (dig m).2, (dig (d / 10)).2, (dig d).2]
  have hdim : daysInMonth y m ≤ 31 := by
    unfold daysInMonth; split_ifs <;> omega
  have k1 : y / 10 / 10 = y / 100 := by rw [Nat.div_div_eq_div_mul]
  have k2 : y / 100 / 10 = y / 1000 := by rw [Nat.div_div_eq_div_mul]
  have k3 : y / 1000 % 10 = y / 1000 := Nat.mod_eq_of_lt (by omega)
  have k4 : m / 10 % 10 = m / 10 := Nat.mod_eq_of_lt (by omega)
  have k5 : d / 10 % 10 = d / 10 := Nat.mod_eq_of_lt (by omega)
  have hy : 1000 * (y / 1000 % 10) + 100 * (y / 100 % 10) + 10 * (y / 10 % 10) + y % 10 = y := by
    rw [k3]; omega
  have hm : 10 * (m / 10 % 10) + m % 10 = m := by rw [k4]; omega
  have hd : 10 * (d / 10 % 10) + d % 10 = d := by rw [k5]; omega
  simp only [hy, hm, hd, h, if_true]

/-- Dataclass `User` from `models.py` (staff record). -/
structure User where
  name : String
  email : String
  phone : String
  role : String
  password : String
  unavailable_dates : List Date
  blacklist_subjects : List String
  shifts_assigned : Nat
  last_shift_date : Option Date
deriving DecidableEq, Repr

def defaultUser : User :=
  { name := "", email := "", phone := "", role := "", password := "password123",
    unavailable_dates := [], blacklist_subjects := [], shifts_assigned := 0,
    last_shift_date := none }

/-- The dictionary produced by `User.to_dict` (all keys present; dates are
ISO strings, `last_shift_date` may be `None`). -/
structure UserDict where
  name : String
  email : String
  phone : String
  role : String
  password : String
  unavailable_dates : List String
  blacklist_subjects : List String
  shifts_assigned : Nat
  last_shift_date : Option String
deriving DecidableEq, Repr

/-- Method `User.to_dict` from `models.py`. -/
def User.to_dict (u : User) : UserDict :=
  { name := u.name, email := u.email, phone := u.phone, role := u.role,
    password := u.password,
    unavailable_dates := u.unavailable_dates.map Date.isoformat,
    blacklist_subjects := u.blacklist_subjects,
    shifts_assigned := u.shifts_assigned,
    last_shift_date := u.last_shift_date.map Date.isoformat }

/-- Sequential parse of a list of ISO date strings, as the list comprehension
`[date.fromisoformat(d) for d in ...]` (any failure raises, hence `none`). -/
def parseDates : List String → Option (List Date)
  | [] => some []
  | s :: rest =>
    match Date.fromisoformat s, parseDates rest with
    | some d, some ds => some (d :: ds)
    | _, _ => none

/-- Assemble the `User` rebuilt by `User.from_dict` from the parsed pieces. -/
def rebuiltUser (dd : UserDict) (uds : List Date) (last : Option Date) : User :=
  { name := dd.name, email := dd.email, phone := dd.phone, role := dd.role,
    password := dd.password, unavailable_dates := uds,
    blacklist_subjects := dd.blacklist_subjects,
    shifts_assigned := dd.shifts_assigned, last_shift_date := last }

/-- Method `User.from_dict` from `models.py`: parses the ISO date strings back
(`date.fromisoformat` raising on malformed input is modelled as `none`);
a falsy (`None` or empty) `last_shift_date` leaves the field `None`. -/
def User.from_dict (dd : UserDict) : Option User :=
  match parseDates dd.unavailable_dates with
  | none => none
  | some uds =>
    match dd.last_shift_date with
    | none => some (rebuiltUser dd uds none)
    | some s =>
      if s = "" then some (rebuiltUser dd uds none)
      else
        match Date.fromisoformat s with
        | none => none
        | some dt => some (rebuiltUser dd uds (some dt))

/-- Dataclass `Lesson` from `models.py`. -/
structure Lesson where
  date : Date
  subject : String
  start_time : String
  end_time : String
  location : String
  duration_hours : ℚ
  is_supervision : Bool
deriving DecidableEq, Repr

/-- The dictionary produced by `Lesson.to_dict`. -/
structure LessonDict where
  date : String
  subject : String
  start_time : String
  end_time : String
  location : String
  duration_hours : ℚ
  is_supervision : Bool
deriving DecidableEq, Repr

/-- Method `Lesson.to_dict` from `models.py`. -/
def Lesson.to_dict (l : Lesson) : LessonDict :=
  { date := l.date.isoformat, subject := l.subject, start_time := l.start_time,
    end_time := l.end_time, location := l.location,
    duration_hours := l.duration_hours, is_supervision := l.is_supervision }

/-- Assemble the `Lesson` rebuilt by `Lesson.from_dict`. -/
def rebuiltLesson (dd : LessonDict) (dt : Date) : Lesson :=
  { date := dt, subject := dd.subject, start_time := dd.start_time,
    end_time := dd.end_time, location := dd.location,
    duration_hours := dd.duration_hours, is_supervision := dd.is_supervision }

/-- Method `Lesson.from_dict` from `models.py`. -/
def Lesson.from_dict (dd : LessonDict) : Option Lesson :=
  match Date.fromisoformat dd.date with
  | none => none
  | some dt => some (rebuiltLesson dd dt)

theorem parseDates_map_iso (l : List Date) (h : ∀ dt ∈ l, dt.valid = true) :
    parseDates (l.map Date.isoformat) = some l := by
  induction l with
  | nil => rfl
  | cons a l ih =>
    have ha : Date.fromisoformat (Date.isoformat a) = some a := by
      have := fromisoformat_isoformat a.year a.month a.day (h a (by simp))
      simpa using this
    have ht := ih (fun dt hdt => h dt (by simp [hdt]))
    simp [parseDates, ha, ht]

theorem isoformat_ne_empty (d : Date) : Date.isoformat d ≠ "" := by
  intro h
  have : (Date.isoformat d).data = ("" : String).data := by rw [h]
  simp [Date.isoformat, pad4Chars] at this

/-- All date-valued fields of a staff record are within the bounds that
Python `datetime.date` guarantees for every constructed date. -/
def User.datesValid (u : User) : Bool :=
  u.unavailable_dates.all Date.valid &&
    (match u.last_shift_date with
     | none => true
     | some dt => dt.valid)

/-- C9: serializing a Staff record or a Lesson record to a dict and
deserializing it back (`User.to_dict` then `User.from_dict`; `Lesson.to_dict`
then `Lesson.from_dict`) yields an object with all fields equal to the
original's, dates compared as dates.  The hypotheses state that the stored
dates satisfy the bounds `datetime.date` enforces on every date object. -/
theorem roundtrip_to_dict_from_dict :
    (∀ u : User, u.datesValid = true → User.from_dict (User.to_dict u) = some u) ∧
    (∀ l : Lesson, l.date.valid = true → Lesson.from_dict (Lesson.to_dict l) = some l) := by
  constructor
  · intro u h
    obtain ⟨n, e, ph, r, pw, ud, bl, sa, ls⟩ := u
    cases ls with
    | none =>
      simp only [User.datesValid, Bool.and_eq_true, List.all_eq_true] at h
      have hp : parseDates (ud.map Date.isoformat) = some ud :=
        parseDates_map_iso _ h.1
      simp [User.from_dict, User.to_dict, hp, rebuiltUser]
    | some dt =>
      simp only [User.datesValid, Bool.and_eq_true, List.all_eq_true] at h
      have hp : parseDates (ud.map Date.isoformat) = some ud :=
        parseDates_map_iso _ h.1
      have hdt : Date.fromisoformat (Date.isoformat dt) = some dt := by
        simpa using fromisoformat_isoformat dt.year dt.month dt.day h.2
      simp [User.from_dict, User.to_dict, hp, rebuiltUser,
        isoformat_ne_empty dt, hdt]
  · intro l h
    obtain ⟨dt, sub, st, et, loc, dur, sup⟩ := l
    have hdt : Date.fromisoformat (Date.isoformat dt) = some dt := by
      simpa using fromisoformat_isoformat dt.year dt.month dt.day h
    simp [Lesson.from_dict, Lesson.to_dict, hdt, rebuiltLesson]

/-- A concrete staff record exercising every field of the round trip. -/
def exUser : User :=
  { name := "Ada", email := "ada@example.org", phone := "3331112222",
    role := "Sbobinatore", password := "pw",
    unavailable_dates := [⟨2025, 9, 2⟩, ⟨2024, 2, 29⟩],
    blacklist_subjects := ["Chimica"], shifts_assigned := 3,
    last_shift_date := some ⟨2025, 10, 1⟩ }

/-- A concrete lesson record exercising the round trip. -/
def exLesson : Lesson :=
  { date := ⟨2025, 9, 2⟩, subject := "Anatomia", start_time := "09:00",
    end_time := "11:00", location := "Aula 1", duration_hours := 2,
    is_supervision := false }

/-- Witness for C9 at concrete records. -/
theorem roundtrip_to_dict_from_dict_witness :
    User.from_dict (User.to_dict exUser) = some exUser ∧
    Lesson.from_dict (Lesson.to_dict exLesson) = some exLesson :=
  ⟨roundtrip_to_dict_from_dict.1 exUser (by decide),
   roundtrip_to_dict_from_dict.2 exLesson (by decide)⟩

/-- Dataclass `Shift` from `models.py`.  Python stores references to the staff
objects; references are modelled as indices into the roster list. -/
structure Shift where
  lesson : Lesson
  sbobinatori : List Nat
  revisori : List Nat
deriving DecidableEq, Repr

def defaultShift : Shift := ⟨⟨⟨1, 1, 1⟩, "", "", "", "", 0, false⟩, [], []⟩

/-- The staff object a roster index refers to. -/
def uAt (roster : List User) (i : Nat) : User := roster.getD i defaultUser

/-- Method `ShiftOptimizer.is_user_available` from `utils.py`: unavailability dates,
subject blacklist, and the max-one-shift-per-day distance constraint. -/
def is_user_available (user : User) (lesson : Lesson) : Bool :=
  if lesson.date ∈ user.unavailable_dates then false
  else if lesson.subject ∈ user.blacklist_subjects then false
  else if user.last_shift_date = some lesson.date then false
  else true

/-- Stable ascending insertion by current `shifts_assigned`; an element is
placed before the first position whose key is not smaller. -/
def insertByLoad (roster : List User) (x : Nat) : List Nat → List Nat
  | [] => [x]
  | y :: ys =>
    if (uAt roster y).shifts_assigned < (uAt roster x).shifts_assigned then
      y :: insertByLoad roster x ys
    else x :: y :: ys

/-- Stable insertion sort ascending by `shifts_assigned`, extensionally equal
to Python's stable `sorted(user_list, key=lambda u: u.shifts_assigned)`. -/
def sortByLoad (roster : List User) : List Nat → List Nat
  | [] => []
  | x :: xs => insertByLoad roster x (sortByLoad roster xs)

/-- Method `ShiftOptimizer.sort_users_by_load`: `random.shuffle(user_list)` followed
by a stable sort ascending by `shifts_assigned`.  The shuffle outcome is the
`reorder` parameter. -/
def sort_users_by_load (reorder : List Nat → List Nat) (roster : List User)
    (user_list : List Nat) : List Nat :=
  sortByLoad roster (reorder user_list)

/-- The per-lesson staffing requirement computed inline in
`ShiftOptimizer.generate_shifts` (transcribers needed, reviewers needed). -/
def required_staffing (is_supervision : Bool) (duration_hours : ℚ) : Nat × Nat :=
  if is_supervision then
    (0, if duration_hours ≤ 3 then 1 else 2)
  else
    if duration_hours ≤ 2 then (2, 1)
    else if duration_hours ≤ 3 then (3, 1)
    else (4, 2)

/-- The in-place mutation `selected.shifts_assigned += 1;
selected.last_shift_date = lesson.date`. -/
def bump (u : User) (ldate : Date) : User :=
  { u with shifts_assigned := u.shifts_assigned + 1, last_shift_date := some ldate }

/-- One role-filling loop of `generate_shifts` (`for _ in range(needed)`):
each iteration filters the sorted candidate list for the wanted role and for
staff not already assigned in this lesson (Python `c not in assigned_…`,
dataclass value equality on the current objects), takes the first hit, and
mutates that staff object's load state immediately. -/
def assignLoop (role : String) (ldate : Date) (candidates : List Nat) :
    Nat → List User → List Nat → List Nat → List Nat × List User
  | 0, roster, own, _other => (own, roster)
  | needed + 1, roster, own, other =>
    let valid_c := candidates.filter (fun c =>
      (uAt roster c).role == role &&
      own.all (fun j => ! decide (uAt roster j = uAt roster c)) &&
      other.all (fun j => ! decide (uAt roster j = uAt roster c)))
    match valid_c with
    | [] => assignLoop role ldate candidates needed roster own other
    | c :: _ =>
      assignLoop role ldate candidates needed
        (roster.set c (bump (uAt roster c) ldate)) (own ++ [c]) other

/-- The assignment `lesson.is_supervision = is_supervision` done by the loop body. -/
def withSupFlag (supervision_subjects : List String) (lesson : Lesson) : Lesson :=
  { lesson with is_supervision := supervision_subjects.contains lesson.subject }

/-- The selection `candidates = [u for u in self.users if self.is_user_available(u, lesson)]`
followed by `self.sort_users_by_load(candidates)`. -/
def lessonCandidates (reorder : List Nat → List Nat)
    (supervision_subjects : List String) (roster : List User) (lesson : Lesson) :
    List Nat :=
  sort_users_by_load reorder roster
    ((List.range roster.length).filter
      (fun i => is_user_available (uAt roster i) (withSupFlag supervision_subjects lesson)))

/-- The transcriber-filling loop (`# Assign Sbobinatori`). -/
def sbobPhase (reorder : List Nat → List Nat) (supervision_subjects : List String)
    (roster : List User) (lesson : Lesson) : List Nat × List User :=
  assignLoop "Sbobinatore" lesson.date
    (lessonCandidates reorder supervision_subjects roster lesson)
    (required_staffing (supervision_subjects.contains lesson.subject) lesson.duration_hours).1
    roster [] []

/-- The reviewer-filling loop (`# Assign Revisori`), running on the roster
state left by the transcriber loop. -/
def revPhase (reorder : List Nat → List Nat) (supervision_subjects : List String)
    (roster : List User) (lesson : Lesson) : List Nat × List User :=
  assignLoop "Revisore" lesson.date
    (lessonCandidates reorder supervision_subjects roster lesson)
    (required_staffing (supervision_subjects.contains lesson.subject) lesson.duration_hours).2
    (sbobPhase reorder supervision_subjects roster lesson).2 []
    (sbobPhase reorder supervision_subjects roster lesson).1

/-- The body of the `for lesson in lessons` loop of `generate_shifts`: skip an
excluded lesson entirely; otherwise set the lesson's supervision flag, compute
the staffing requirement, collect and order the eligible candidates, fill the
transcriber slots and then the reviewer slots.  Returns the produced shift (if
any), the lesson as left by the loop body, and the updated roster. -/
def processLesson (reorder : List Nat → List Nat)
    (supervision_subjects excluded_subjects : List String)
    (roster : List User) (lesson : Lesson) : Option Shift × Lesson × List User :=
  if excluded_subjects.contains lesson.subject then (none, lesson, roster)
  else
    (some ⟨withSupFlag supervision_subjects lesson,
           (sbobPhase reorder supervision_subjects roster lesson).1,
           (revPhase reorder supervision_subjects roster lesson).1⟩,
     withSupFlag supervision_subjects lesson,
     (revPhase reorder supervision_subjects roster lesson).2)

/-- Method `ShiftOptimizer.generate_shifts`, the lesson loop.  The roster state and
the in-place lesson updates are explicit in the result; `reorder k` supplies
the `random.shuffle` outcome used while processing the `k`-th lesson. -/
def generateShiftsFrom (reorder : Nat → List Nat → List Nat)
    (supervision_subjects excluded_subjects : List String) :
    List User → List Lesson → Nat → List Shift × List Lesson × List User
  | roster, [], _ => ([], [], roster)
  | roster, lesson :: rest, k =>
    let step := processLesson (reorder k) supervision_subjects excluded_subjects roster lesson
    let tail := generateShiftsFrom reorder supervision_subjects excluded_subjects
      step.2.2 rest (k + 1)
    match step.1 with
    | none => (tail.1, step.2.1 :: tail.2.1, tail.2.2)
    | some s => (s :: tail.1, step.2.1 :: tail.2.1, tail.2.2)

/-- Method `ShiftOptimizer.generate_shifts` applied to a fresh optimizer. -/
def generate_shifts (reorder : Nat → List Nat → List Nat)
    (supervision_subjects excluded_subjects : List String)
    (roster : List User) (lessons : List Lesson) :
    List Shift × List Lesson × List User :=
  generateShiftsFrom reorder supervision_subjects excluded_subjects roster lessons 0

/-- The staffing table of spec section 4.2, read row by row (as a table of
ordered cases, so the standard `≤ 3` row applies above 2 hours). -/
def specStaffingTable (mode_supervision : Bool) (duration : ℚ) : Nat × Nat :=
  if mode_supervision then
    if duration ≤ 3 then (0, 1) else (0, 2)
  else
    if duration ≤ 2 then (2, 1)
    else if duration ≤ 3 then (3, 1)
    else (4, 2)

/-- C1: the staffing counts used by the allocator are a deterministic function
of `(is_supervision, duration_hours)` equal to the spec table everywhere, and
in particular at each boundary duration 2.0, 2.01, 3.0, 3.01 in both modes. -/
theorem staffing_matches_table :
    (∀ (b : Bool) (d : ℚ), required_staffing b d = specStaffingTable b d) ∧
    required_staffing true 2 = (0, 1) ∧ required_staffing true 2.01 = (0, 1) ∧
    required_staffing true 3 = (0, 1) ∧ required_staffing true 3.01 = (0, 2) ∧
    required_staffing false 2 = (2, 1) ∧ required_staffing false 2.01 = (3, 1) ∧
    required_staffing false 3 = (3, 1) ∧ required_staffing false 3.01 = (4, 2) := by
  refine ⟨fun b d => ?_, ?_, ?_, ?_, ?_, ?_, ?_, ?_, ?_⟩
  · cases b with
    | true =>
      by_cases h : d ≤ 3 <;> simp [required_staffing, specStaffingTable, h]
    | false => rfl
  all_goals norm_num [required_staffing]

theorem genFrom_map_lesson (reorder : Nat → List Nat → List Nat)
    (sup exc : List String) :
    ∀ (lessons : List Lesson) (roster : List User) (k : Nat),
    (generateShiftsFrom reorder sup exc roster lessons k).1.map Shift.lesson =
      (lessons.filter (fun l => ! exc.contains l.subject)).map
        (fun l => { l with is_supervision := sup.contains l.subject }) := by
  intro lessons
  induction lessons with
  | nil => intro roster k; rfl
  | cons l rest ih =>
    intro roster k
    by_cases hx : l.subject ∈ exc
    · simp [generateShiftsFrom, processLesson, withSupFlag, hx, ih]
    · simp [generateShiftsFrom, processLesson, withSupFlag, hx, ih]

/-- C3: one `Shift` per non-excluded lesson, in lesson-input order; an
excluded lesson yields no shift at all, also when its subject is in the
supervision set (the exclusion test runs first and does not consult it). -/
theorem one_shift_per_nonexcluded_lesson
    (reorder : Nat → List Nat → List Nat) (sup exc : List String)
    (roster : List User) (lessons : List Lesson) :
    (generate_shifts reorder sup exc roster lessons).1.map Shift.lesson =
      (lessons.filter (fun l => ! exc.contains l.subject)).map
        (fun l => { l with is_supervision := sup.contains l.subject }) :=
  genFrom_map_lesson reorder sup exc lessons roster 0

theorem uAt_set (roster : List User) (c : Nat) (u' : User) (i : Nat) :
    uAt (roster.set c u') i =
      if c = i then (if c < roster.length then u' else uAt roster i)
      else uAt roster i := by
  unfold uAt
  rw [List.getD_eq_getElem?_getD, List.getD_eq_getElem?_getD, List.getElem?_set]
  by_cases h : c = i
  · subst h
    by_cases hl : c < roster.length
    · simp [hl]
    · simp [hl, List.getElem?_eq_none (Nat.le_of_not_lt hl)]
  · simp [h]

/-- The staff fields `generate_shifts` never writes: everything except the
load state `shifts_assigned` and `last_shift_date`. -/
def sameStaffIdentity (u v : User) : Prop :=
  u.name = v.name ∧ u.email = v.email ∧ u.phone = v.phone ∧ u.role = v.role ∧
  u.password = v.password ∧ u.unavailable_dates = v.unavailable_dates ∧
  u.blacklist_subjects = v.blacklist_subjects

theorem sameStaffIdentity_refl (u : User) : sameStaffIdentity u u :=
  ⟨rfl, rfl, rfl, rfl, rfl, rfl, rfl⟩

theorem sameStaffIdentity_trans {a b c : User}
    (h1 : sameStaffIdentity a b) (h2 : sameStaffIdentity b c) :
    sameStaffIdentity a c := by
  obtain ⟨e1, e2, e3, e4, e5, e6, e7⟩ := h1
  obtain ⟨f1, f2, f3, f4, f5, f6, f7⟩ := h2
  exact ⟨e1.trans f1, e2.trans f2, e3.trans f3, e4.trans f4,
    e5.trans f5, e6.trans f6, e7.trans f7⟩

theorem sameStaffIdentity_bump (u : User) (ldate : Date) :
    sameStaffIdentity (bump u ldate) u :=
  ⟨rfl, rfl, rfl, rfl, rfl, rfl, rfl⟩

theorem set_bump_identity (roster : List User) (c : Nat) (ldate : Date) (i : Nat) :
    sameStaffIdentity (uAt (roster.set c (bump (uAt roster c) ldate)) i) (uAt roster i) := by
  rw [uAt_set]
  split_ifs with h1 h2
  · subst h1; exact sameStaffIdentity_bump _ _
  · exact sameStaffIdentity_refl _
  · exact sameStaffIdentity_refl _

theorem assignLoop_roster_length (role : String) (ldate : Date) (cands : List Nat) :
    ∀ (n : Nat) (roster : List User) (own other : List Nat),
    ((assignLoop role ldate cands n roster own other).2).length = roster.length := by
  intro n
  induction n with
  | zero => intro roster own other; rfl
  | succ n ih =>
    intro roster own other
    simp only [assignLoop]
    split
    · exact ih roster own other
    · exact (ih _ _ other).trans (List.length_set roster _ _)

theorem assignLoop_identity (role : String) (ldate : Date) (cands : List Nat) :
    ∀ (n : Nat) (roster : List User) (own other : List Nat) (i : Nat),
    sameStaffIdentity (uAt ((assignLoop role ldate cands n roster own other).2) i)
      (uAt roster i) := by
  intro n
  induction n with
  | zero => intro roster own other i; exact sameStaffIdentity_refl _
  | succ n ih =>
    intro roster own other i
    simp only [assignLoop]
    split
    · exact ih roster own other i
    · exact sameStaffIdentity_trans (ih _ _ other i) (set_bump_identity roster _ ldate i)

theorem valid_head_facts (roster : List User) (role : String)
    (cands own other : List Nat) (c : Nat) (cs : List Nat)
    (h : cands.filter (fun c =>
        (uAt roster c).role == role &&
        own.all (fun j => ! decide (uAt roster j = uAt roster c)) &&
        other.all (fun j => ! decide (uAt roster j = uAt roster c))) = c :: cs) :
    c ∈ cands ∧ (uAt roster c).role = role ∧ c ∉ own ∧ c ∉ other := by
  have hc : c ∈ cands.filter (fun c =>
      (uAt roster c).role == role &&
      own.all (fun j => ! decide (uAt roster j = uAt roster c)) &&
      other.all (fun j => ! decide (uAt roster j = uAt roster c))) := by
    rw [h]; exact List.mem_cons_self _ _
  obtain ⟨h1, h2⟩ := List.mem_filter.1 hc
  simp only [Bool.and_eq_true, List.all_eq_true, beq_iff_eq] at h2
  refine ⟨h1, h2.1.1, ?_, ?_⟩
  · intro hmem
    have := h2.1.2 c hmem
    simp at this
  · intro hmem
    have := h2.2 c hmem
    simp at this

theorem assignLoop_picks (role : String) (ldate : Date) (cands : List Nat)
    (S : List User) :
    ∀ (n : Nat) (roster : List User) (own other : List Nat),
    (∀ i, i ∉ own → i ∉ other → uAt roster i = uAt S i) →
    (∀ x ∈ (assignLoop role ldate cands n roster own other).1,
        x ∈ own ∨ (x ∈ cands ∧ (uAt S x).role = role ∧ x ∉ own ∧ x ∉ other)) ∧
    (∀ i, i ∉ (assignLoop role ldate cands n roster own other).1 → i ∉ other →
        uAt ((assignLoop role ldate cands n roster own other).2) i = uAt S i) ∧
    (∀ x ∈ own, x ∈ (assignLoop role ldate cands n roster own other).1) := by
  intro n
  induction n with
  | zero =>
    intro roster own other hinv
    exact ⟨fun x hx => Or.inl hx, fun i h1 h2 => hinv i h1 h2, fun x hx => hx⟩
  | succ n ih =>
    intro roster own other hinv
    simp only [assignLoop]
    split
    · exact ih roster own other hinv
    · rename_i c cs heq
      obtain ⟨hc_mem, hc_role, hc_own, hc_other⟩ :=
        valid_head_facts roster role cands own other c cs heq
      have hcS : uAt roster c = uAt S c := hinv c hc_own hc_other
      have hinv' : ∀ i, i ∉ own ++ [c] → i ∉ other →
          uAt (roster.set c (bump (uAt roster c) ldate)) i = uAt S i := by
        intro i hi1 hi2
        have hic : i ≠ c := by
          intro h; subst h
          exact hi1 (List.mem_append_right _ (List.mem_singleton.2 rfl))
        rw [uAt_set, if_neg (fun h => hic h.symm)]
        exact hinv i (fun h => hi1 (List.mem_append_left _ h)) hi2
      obtain ⟨ihA, ihB, ihC⟩ := ih _ (own ++ [c]) other hinv'
      refine ⟨?_, ihB, ?_⟩
      · intro x hx
        rcases ihA x hx with hx1 | hx2
        · rcases List.mem_append.1 hx1 with h | h
          · exact Or.inl h
          · have hxc : x = c := List.mem_singleton.1 h
            subst hxc
            exact Or.inr ⟨hc_mem, by rw [← hcS]; exact hc_role, hc_own, hc_other⟩
        · exact Or.inr ⟨hx2.1, hx2.2.1,
            fun h => hx2.2.2.1 (List.mem_append_left _ h), hx2.2.2.2⟩
      · intro x hx
        exact ihC x (List.mem_append_left _ hx)

theorem assignLoop_nodup (role : String) (ldate : Date) (cands : List Nat) :
    ∀ (n : Nat) (roster : List User) (own other : List Nat),
    own.Nodup → ((assignLoop role ldate cands n roster own other).1).Nodup := by
  intro n
  induction n with
  | zero => intro roster own other h; exact h
  | succ n ih =>
    intro roster own other h
    simp only [assignLoop]
    split
    · exact ih roster own other h
    · rename_i c cs heq
      obtain ⟨-, -, hc_own, -⟩ := valid_head_facts roster role cands own other c cs heq
      exact ih _ _ other (by simp [List.nodup_append, h, hc_own])

theorem assignLoop_length_le (role : String) (ldate : Date) (cands : List Nat) :
    ∀ (n : Nat) (roster : List User) (own other : List Nat),
    ((assignLoop role ldate cands n roster own other).1).length ≤ own.length + n := by
  intro n
  induction n with
  | zero => intro roster own other; simp [assignLoop]
  | succ n ih =>
    intro roster own other
    simp only [assignLoop]
    split
    · exact (ih roster own other).trans (by omega)
    · rename_i c cs heq
      have := ih (roster.set c (bump (uAt roster c) ldate)) (own ++ [c]) other
      simp only [List.length_append, List.length_singleton] at this
      exact this.trans (by omega)

theorem insertByLoad_perm (roster : List User) (x : Nat) :
    ∀ l : List Nat, List.Perm (insertByLoad roster x l) (x :: l) := by
  intro l
  induction l with
  | nil => exact List.Perm.refl _
  | cons y ys ih =>
    simp only [insertByLoad]
    split
    · exact (ih.cons y).trans (List.Perm.swap x y ys)
    · exact List.Perm.refl _

theorem sortByLoad_perm (roster : List User) :
    ∀ l : List Nat, List.Perm (sortByLoad roster l) l := by
  intro l
  induction l with
  | nil => exact List.Perm.nil
  | cons x xs ih => exact (insertByLoad_perm roster x _).trans (ih.cons x)

theorem processLesson_shift_facts (re : List Nat → List Nat)
    (sup exc : List String) (roster : List User) (lesson : Lesson)
    (hx : lesson.subject ∉ exc) :
    ∀ s, (processLesson re sup exc roster lesson).1 = some s →
      s.lesson = withSupFlag sup lesson ∧
      s.sbobinatori.length ≤
        (required_staffing (sup.contains lesson.subject) lesson.duration_hours).1 ∧
      s.revisori.length ≤
        (required_staffing (sup.contains lesson.subject) lesson.duration_hours).2 ∧
      s.sbobinatori.Nodup ∧ s.revisori.Nodup ∧
      (∀ i ∈ s.revisori, i ∉ s.sbobinatori) ∧
      (∀ i ∈ s.sbobinatori, (uAt roster i).role = "Sbobinatore") ∧
      (∀ i ∈ s.revisori, (uAt roster i).role = "Revisore") := by
  intro s hs
  have hxc : exc.contains lesson.subject = false := by simp [hx]
  simp only [processLesson, hxc, Bool.false_eq_true, if_false, Option.some.injEq] at hs
  subst hs
  have hsb := assignLoop_picks "Sbobinatore" lesson.date
    (lessonCandidates re sup roster lesson) roster
    (required_staffing (sup.contains lesson.subject) lesson.duration_hours).1
    roster [] [] (fun i _ _ => rfl)
  have hrevd := assignLoop_picks "Revisore" lesson.date
    (lessonCandidates re sup roster lesson)
    (sbobPhase re sup roster lesson).2
    (required_staffing (sup.contains lesson.subject) lesson.duration_hours).2
    (sbobPhase re sup roster lesson).2 []
    (sbobPhase re sup roster lesson).1 (fun i _ _ => rfl)
  have hrevr := assignLoop_picks "Revisore" lesson.date
    (lessonCandidates re sup roster lesson) roster
    (required_staffing (sup.contains lesson.subject) lesson.duration_hours).2
    (sbobPhase re sup roster lesson).2 []
    (sbobPhase re sup roster lesson).1
    (fun i _ hiS => hsb.2.1 i hiS (by simp))
  refine ⟨rfl, ?_, ?_, ?_, ?_, ?_, ?_, ?_⟩
  · simpa [sbobPhase] using assignLoop_length_le "Sbobinatore" lesson.date
      (lessonCandidates re sup roster lesson)
      (required_staffing (sup.contains lesson.subject) lesson.duration_hours).1
      roster [] []
  · simpa [revPhase] using assignLoop_length_le "Revisore" lesson.date
      (lessonCandidates re sup roster lesson)
      (required_staffing (sup.contains lesson.subject) lesson.duration_hours).2
      (sbobPhase re sup roster lesson).2 []
      (sbobPhase re sup roster lesson).1
  · exact assignLoop_nodup "Sbobinatore" lesson.date
      (lessonCandidates re sup roster lesson) _ roster [] [] List.nodup_nil
  · exact assignLoop_nodup "Revisore" lesson.date
      (lessonCandidates re sup roster lesson) _
      (sbobPhase re sup roster lesson).2 []
      (sbobPhase re sup roster lesson).1 List.nodup_nil
  · intro i hi
    rcases hrevd.1 i hi with h | h
    · exact absurd h (List.not_mem_nil i)
    · exact h.2.2.2
  · intro i hi
    rcases hsb.1 i hi with h | h
    · exact absurd h (List.not_mem_nil i)
    · exact h.2.1
  · intro i hi
    rcases hrevr.1 i hi with h | h
    · exact absurd h (List.not_mem_nil i)
    · exact h.2.1

theorem processLesson_identity (re : List Nat → List Nat) (sup exc : List String)
    (roster : List User) (lesson : Lesson) (i : Nat) :
    sameStaffIdentity (uAt (processLesson re sup exc roster lesson).2.2 i)
      (uAt roster i) := by
  cases hxc : exc.contains lesson.subject with
  | false =>
    simp only [processLesson, hxc, Bool.false_eq_true, if_false]
    exact sameStaffIdentity_trans
      (assignLoop_identity "Revisore" lesson.date
        (lessonCandidates re sup roster lesson) _
        (sbobPhase re sup roster lesson).2 [] (sbobPhase re sup roster lesson).1 i)
      (assignLoop_identity "Sbobinatore" lesson.date
        (lessonCandidates re sup roster lesson) _ roster [] [] i)
  | true =>
    simp only [processLesson, hxc, if_true]
    exact sameStaffIdentity_refl _

theorem processLesson_length (re : List Nat → List Nat) (sup exc : List String)
    (roster : List User) (lesson : Lesson) :
    ((processLesson re sup exc roster lesson).2.2).length = roster.length := by
  by_cases hx : lesson.subject ∈ exc
  · simp [processLesson, hx]
  · have hxc : exc.contains lesson.subject = false := by simp [hx]
    simp only [processLesson, hxc, Bool.false_eq_true, if_false]
    exact (assignLoop_roster_length "Revisore" lesson.date
        (lessonCandidates re sup roster lesson) _
        (sbobPhase re sup roster lesson).2 [] (sbobPhase re sup roster lesson).1).trans
      (assignLoop_roster_length "Sbobinatore" lesson.date
        (lessonCandidates re sup roster lesson) _ roster [] [])

theorem processLesson_lesson_out (re : List Nat → List Nat) (sup exc : List String)
    (roster : List User) (lesson : Lesson) :
    (processLesson re sup exc roster lesson).2.1 =
      if exc.contains lesson.subject then lesson else withSupFlag sup lesson := by
  by_cases hx : lesson.subject ∈ exc
  · have hxc : exc.contains lesson.subject = true := by simp [hx]
    simp [processLesson, hxc, hx]
  · have hxc : exc.contains lesson.subject = false := by simp [hx]
    simp [processLesson, hxc, hx]

theorem genFrom_frame (reorder : Nat → List Nat → List Nat) (sup exc : List String) :
    ∀ (lessons : List Lesson) (roster : List User) (k : Nat),
    ((generateShiftsFrom reorder sup exc roster lessons k).2.2).length = roster.length ∧
    (∀ i, sameStaffIdentity
        (uAt (generateShiftsFrom reorder sup exc roster lessons k).2.2 i) (uAt roster i)) ∧
    (generateShiftsFrom reorder sup exc roster lessons k).2.1 =
      lessons.map (fun l => if exc.contains l.subject then l else withSupFlag sup l) := by
  intro lessons
  induction lessons with
  | nil => intro roster k; exact ⟨rfl, fun i => sameStaffIdentity_refl _, rfl⟩
  | cons l rest ih =>
    intro roster k
    have hlen := processLesson_length (reorder k) sup exc roster l
    have hid := processLesson_identity (reorder k) sup exc roster l
    have hout := processLesson_lesson_out (reorder k) sup exc roster l
    obtain ⟨ih1, ih2, ih3⟩ := ih ((processLesson (reorder k) sup exc roster l).2.2) (k + 1)
    cases hs : (processLesson (reorder k) sup exc roster l).1 with
    | none =>
      simp only [generateShiftsFrom, hs]
      exact ⟨ih1.trans hlen, fun i => sameStaffIdentity_trans (ih2 i) (hid i),
        by simp [ih3, hout]⟩
    | some s0 =>
      simp only [generateShiftsFrom, hs]
      exact ⟨ih1.trans hlen, fun i => sameStaffIdentity_trans (ih2 i) (hid i),
        by simp [ih3, hout]⟩

/-- C10: a run of `generate_shifts` leaves the roster length unchanged,
changes no staff field except `shifts_assigned` and `last_shift_date`
(`sameStaffIdentity` lists the other seven fields), and rewrites each lesson
to exactly its input value — except that a non-excluded lesson's
`is_supervision` flag is set from the supervision-subjects set (`withSupFlag`
changes only that field); excluded lessons are not touched at all. -/
theorem allocation_frame_effects (reorder : Nat → List Nat → List Nat)
    (sup exc : List String) (roster : List User) (lessons : List Lesson) :
    ((generate_shifts reorder sup exc roster lessons).2.2).length = roster.length ∧
    (∀ i, sameStaffIdentity
        (uAt (generate_shifts reorder sup exc roster lessons).2.2 i) (uAt roster i)) ∧
    (generate_shifts reorder sup exc roster lessons).2.1 =
      lessons.map (fun l => if exc.contains l.subject then l else withSupFlag sup l) :=
  genFrom_frame reorder sup exc lessons roster 0

theorem genFrom_shift_facts (reorder : Nat → List Nat → List Nat)
    (sup exc : List String) :
    ∀ (lessons : List Lesson) (roster : List User) (k : Nat),
    ∀ s ∈ (generateShiftsFrom reorder sup exc roster lessons k).1,
      s.sbobinatori.length ≤
        (required_staffing s.lesson.is_supervision s.lesson.duration_hours).1 ∧
      s.revisori.length ≤
        (required_staffing s.lesson.is_supervision s.lesson.duration_hours).2 ∧
      s.sbobinatori.Nodup ∧ s.revisori.Nodup ∧
      (∀ i ∈ s.revisori, i ∉ s.sbobinatori) ∧
      (∀ i ∈ s.sbobinatori, (uAt roster i).role = "Sbobinatore") ∧
      (∀ i ∈ s.revisori, (uAt roster i).role = "Revisore") := by
  intro lessons
  induction lessons with
  | nil => intro roster k s hs; exact absurd hs (List.not_mem_nil s)
  | cons l rest ih =>
    intro roster k s hs
    have hid := processLesson_identity (reorder k) sup exc roster l
    cases hps : (processLesson (reorder k) sup exc roster l).1 with
    | none =>
      simp only [generateShiftsFrom, hps] at hs
      obtain ⟨f1, f2, f3, f4, f5, f6, f7⟩ :=
        ih ((processLesson (reorder k) sup exc roster l).2.2) (k + 1) s hs
      refine ⟨f1, f2, f3, f4, f5, ?_, ?_⟩
      · intro i hi
        rw [← (hid i).2.2.2.1]
        exact f6 i hi
      · intro i hi
        rw [← (hid i).2.2.2.1]
        exact f7 i hi
    | some s0 =>
      have hx : l.subject ∉ exc := by
        intro hmem
        have : exc.contains l.subject = true := by simp [hmem]
        simp [processLesson, this, hmem] at hps
      simp only [generateShiftsFrom, hps, List.mem_cons] at hs
      rcases hs with hs | hs
      · subst hs
        obtain ⟨g1, g2, g3, g4, g5, g6, g7, g8⟩ :=
          processLesson_shift_facts (reorder k) sup exc roster l hx s hps
        refine ⟨?_, ?_, g4, g5, g6, g7, g8⟩
        · rw [g1]; simpa [withSupFlag] using g2
        · rw [g1]; simpa [withSupFlag] using g3
      · obtain ⟨f1, f2, f3, f4, f5, f6, f7⟩ :=
          ih ((processLesson (reorder k) sup exc roster l).2.2) (k + 1) s hs
        refine ⟨f1, f2, f3, f4, f5, ?_, ?_⟩
        · intro i hi
          rw [← (hid i).2.2.2.1]
          exact f6 i hi
        · intro i hi
          rw [← (hid i).2.2.2.1]
          exact f7 i hi

/-- C4: in every produced `Shift`, the transcriber set is no larger than the
computed transcriber requirement and the reviewer set no larger than the
reviewer requirement; `generate_shifts` is a total function (no exception on
under-staffing), and slots are never backfilled across roles: every assigned
transcriber has roster role "Sbobinatore" and every assigned reviewer has
roster role "Revisore". -/
theorem shift_sizes_within_requirements (reorder : Nat → List Nat → List Nat)
    (sup exc : List String) (roster : List User) (lessons : List Lesson) :
    ∀ s ∈ (generate_shifts reorder sup exc roster lessons).1,
      s.sbobinatori.length ≤
        (required_staffing s.lesson.is_supervision s.lesson.duration_hours).1 ∧
      s.revisori.length ≤
        (required_staffing s.lesson.is_supervision s.lesson.duration_hours).2 ∧
      (∀ i ∈ s.sbobinatori, (uAt roster i).role = "Sbobinatore") ∧
      (∀ i ∈ s.revisori, (uAt roster i).role = "Revisore") := by
  intro s hs
  obtain ⟨f1, f2, _, _, _, f6, f7⟩ :=
    genFrom_shift_facts reorder sup exc lessons roster 0 s hs
  exact ⟨f1, f2, f6, f7⟩

/-- C5: in every produced `Shift`, no staff member appears in both the
transcriber and the reviewer set, and no staff member appears twice within
either set (staff identity is the roster position the Python object
reference denotes). -/
theorem no_role_crossover (reorder : Nat → List Nat → List Nat)
    (sup exc : List String) (roster : List User) (lessons : List Lesson) :
    ∀ s ∈ (generate_shifts reorder sup exc roster lessons).1,
      s.sbobinatori.Nodup ∧ s.revisori.Nodup ∧
      ∀ i ∈ s.revisori, i ∉ s.sbobinatori := by
  intro s hs
  obtain ⟨_, _, f3, f4, f5, _, _⟩ :=
    genFrom_shift_facts reorder sup exc lessons roster 0 s hs
  exact ⟨f3, f4, f5⟩

theorem mem_lessonCandidates_eligible (re : List Nat → List Nat)
    (hre : ∀ l : List Nat, List.Perm (re l) l)
    (sup : List String) (roster : List User) (lesson : Lesson) :
    ∀ i ∈ lessonCandidates re sup roster lesson,
      is_user_available (uAt roster i) (withSupFlag sup lesson) = true := by
  intro i hi
  have h1 : i ∈ re ((List.range roster.length).filter
      (fun i => is_user_available (uAt roster i) (withSupFlag sup lesson))) :=
    (sortByLoad_perm roster _).mem_iff.1 hi
  have h2 := (hre _).mem_iff.1 h1
  exact (List.mem_filter.1 h2).2

theorem is_user_available_spec (u : User) (l : Lesson)
    (h : is_user_available u l = true) :
    l.date ∉ u.unavailable_dates ∧ l.subject ∉ u.blacklist_subjects ∧
    u.last_shift_date ≠ some l.date := by
  simp only [is_user_available] at h
  split_ifs at h with h1 h2 h3
  exact ⟨h1, h2, h3⟩

/-- C2 (amended): every staff member assigned in the `Shift` generated for a
lesson was eligible with respect to the roster state current when that lesson
was processed (the state `S` reflecting all assignments of prior lessons in
the run): the lesson's date is not in their unavailable-dates set, the
lesson's subject is not in their blacklist, and their last-assigned date — as
updated by prior lessons — differs from the lesson's date.  Unlike the
original claim, this does not prevent two same-date shifts in one run: when
an assignment on a different date intervenes (lessons are not date-sorted),
`last_shift_date` no longer records the earlier date. -/
theorem eligibility_at_assignment (reorder : Nat → List Nat → List Nat)
    (hre : ∀ (k : Nat) (l : List Nat), List.Perm (reorder k l) l)
    (sup exc : List String) (S : List User) (lesson : Lesson)
    (rest : List Lesson) (k : Nat) (hx : lesson.subject ∉ exc) :
    ∀ s, (generateShiftsFrom reorder sup exc S (lesson :: rest) k).1.head? = some s →
      ∀ i, i ∈ s.sbobinatori ∨ i ∈ s.revisori →
        lesson.date ∉ (uAt S i).unavailable_dates ∧
        lesson.subject ∉ (uAt S i).blacklist_subjects ∧
        (uAt S i).last_shift_date ≠ some lesson.date := by
  intro s hs i hi
  have hxc : exc.contains lesson.subject = false := by simp [hx]
  have hps : (processLesson (reorder k) sup exc S lesson).1 =
      some ⟨withSupFlag sup lesson, (sbobPhase (reorder k) sup S lesson).1,
            (revPhase (reorder k) sup S lesson).1⟩ := by
    simp [processLesson, hxc, hx]
  simp only [generateShiftsFrom, hps, List.head?_cons, Option.some.injEq] at hs
  subst hs
  have hsb := assignLoop_picks "Sbobinatore" lesson.date
    (lessonCandidates (reorder k) sup S lesson) S
    (required_staffing (sup.contains lesson.subject) lesson.duration_hours).1
    S [] [] (fun i _ _ => rfl)
  have hrevr := assignLoop_picks "Revisore" lesson.date
    (lessonCandidates (reorder k) sup S lesson) S
    (required_staffing (sup.contains lesson.subject) lesson.duration_hours).2
    (sbobPhase (reorder k) sup S lesson).2 []
    (sbobPhase (reorder k) sup S lesson).1
    (fun i _ hiS => hsb.2.1 i hiS (by simp))
  rcases hi with hi | hi
  · rcases hsb.1 i hi with h | h
    · exact absurd h (List.not_mem_nil i)
    · exact is_user_available_spec _ _
        (mem_lessonCandidates_eligible (reorder k) (hre k) sup S lesson i h.1)
  · rcases hrevr.1 i hi with h | h
    · exact absurd h (List.not_mem_nil i)
    · exact is_user_available_spec _ _
        (mem_lessonCandidates_eligible (reorder k) (hre k) sup S lesson i h.1)

/-- A `shuffle` outcome that leaves the list as it is. -/
def idReorder : Nat → List Nat → List Nat := fun _ l => l

def cxUser : User :=
  { defaultUser with name := "pia", email := "pia@x", role := "Sbobinatore" }

def cxLesson (d : Date) : Lesson :=
  ⟨d, "Matematica", "09:00", "11:00", "Aula 1", 2, false⟩

/-- A run over three standard lessons whose dates go d1, d2, d1. -/
def cxRun : List Shift × List Lesson × List User :=
  generate_shifts idReorder [] [] [cxUser]
    [cxLesson ⟨2025, 9, 1⟩, cxLesson ⟨2025, 9, 2⟩, cxLesson ⟨2025, 9, 1⟩]

/-- C2 counterexample: when lessons are not sorted by date, the same staff
member is assigned two shifts on the same calendar date within one run — the
distance check only compares against the most recent assignment, which an
intervening lesson on another date overwrites. -/
theorem same_day_double_booking :
    (cxRun.1.getD 0 defaultShift).lesson.date = (cxRun.1.getD 2 defaultShift).lesson.date ∧
    0 ∈ (cxRun.1.getD 0 defaultShift).sbobinatori ∧
    0 ∈ (cxRun.1.getD 2 defaultShift).sbobinatori ∧
    cxRun.1.length = 3 := by decide

/-- Witness for the amended C2 at a concrete run. -/
theorem eligibility_at_assignment_witness :
    (⟨2025, 9, 1⟩ : Date) ∉ (uAt [cxUser] 0).unavailable_dates ∧
    "Matematica" ∉ (uAt [cxUser] 0).blacklist_subjects ∧
    (uAt [cxUser] 0).last_shift_date ≠ some ⟨2025, 9, 1⟩ :=
  eligibility_at_assignment idReorder (fun _ l => List.Perm.refl l) [] [] [cxUser]
    (cxLesson ⟨2025, 9, 1⟩) [cxLesson ⟨2025, 9, 2⟩, cxLesson ⟨2025, 9, 1⟩] 0
    (by decide)
    ⟨cxLesson ⟨2025, 9, 1⟩, [0], []⟩ (by decide) 0 (Or.inl (by decide))

/-- Roster with two transcribers and no reviewer (spec's under-staffing
scenario). -/
def usRoster : List User :=
  [{ defaultUser with name := "a", email := "a@x", role := "Sbobinatore" },
   { defaultUser with name := "b", email := "b@x", role := "Sbobinatore" }]

def usRun : List Shift × List Lesson × List User :=
  generate_shifts idReorder [] [] usRoster [cxLesson ⟨2025, 9, 1⟩]

/-- Witness for C4: a standard two-hour lesson with no eligible reviewer
yields a shift with two transcribers and zero reviewers and no failure. -/
theorem shift_sizes_within_requirements_witness :
    (usRun.1.getD 0 defaultShift).sbobinatori.length ≤
      (required_staffing (usRun.1.getD 0 defaultShift).lesson.is_supervision
        (usRun.1.getD 0 defaultShift).lesson.duration_hours).1 ∧
    (usRun.1.getD 0 defaultShift).revisori.length ≤
      (required_staffing (usRun.1.getD 0 defaultShift).lesson.is_supervision
        (usRun.1.getD 0 defaultShift).lesson.duration_hours).2 ∧
    (uAt usRoster 0).role = "Sbobinatore" ∧
    (usRun.1.getD 0 defaultShift).sbobinatori.length = 2 ∧
    (usRun.1.getD 0 defaultShift).revisori.length = 0 :=
  have h := shift_sizes_within_requirements idReorder [] [] usRoster
    [cxLesson ⟨2025, 9, 1⟩] (usRun.1.getD 0 defaultShift) (by decide)
  ⟨h.1, h.2.1, h.2.2.1 0 (by decide), by decide, by decide⟩

/-- Roster with two transcribers and one reviewer. -/
def crRoster : List User :=
  [{ defaultUser with name := "a", email := "a@x", role := "Sbobinatore" },
   { defaultUser with name := "b", email := "b@x", role := "Sbobinatore" },
   { defaultUser with name := "c", email := "c@x", role := "Revisore" }]

def crRun : List Shift × List Lesson × List User :=
  generate_shifts idReorder [] [] crRoster [cxLesson ⟨2025, 9, 1⟩]

/-- Witness for C5 at a run whose shift has both sets nonempty. -/
theorem no_role_crossover_witness :
    (crRun.1.getD 0 defaultShift).sbobinatori.Nodup ∧
    (crRun.1.getD 0 defaultShift).revisori.Nodup ∧
    2 ∉ (crRun.1.getD 0 defaultShift).sbobinatori :=
  have h := no_role_crossover idReorder [] [] crRoster
    [cxLesson ⟨2025, 9, 1⟩] (crRun.1.getD 0 defaultShift) (by decide)
  ⟨h.1, h.2.1, h.2.2 2 (by decide)⟩

/-- ASCII whitespace stripped by Python `str.strip()` and matched by `\s`. -/
def isSpaceChar (c : Char) : Bool :=
  c == ' ' || c == '\t' || c == '\n' || c == '\r' || c == '\x0b' || c == '\x0c'

/-- Python `str.strip()`. -/
def stripChars (l : List Char) : List Char :=
  ((l.dropWhile isSpaceChar).reverse.dropWhile isSpaceChar).reverse

/-- Python `str.split('\n')`. -/
def splitNl : List Char → List (List Char)
  | [] => [[]]
  | '\n' :: rest => [] :: splitNl rest
  | c :: rest =>
    match splitNl rest with
    | [] => [[c]]
    | l :: ls => (c :: l) :: ls

/-- The comprehension `[line.strip() for line in text.split('\n') if line.strip()]`. -/
def cellLines (text : List Char) : List (List Char) :=
  ((splitNl text).map stripChars).filter (fun l => ! l.isEmpty)

/-- The alternation `(lun|mar|mer|gio|ven|sab|dom)` matched at the head. -/
def isDayToken : List Char → Bool
  | a :: b :: c :: _ =>
    let t := [a, b, c]
    t == ['l', 'u', 'n'] || t == ['m', 'a', 'r'] || t == ['m', 'e', 'r'] ||
    t == ['g', 'i', 'o'] || t == ['v', 'e', 'n'] || t == ['s', 'a', 'b'] ||
    t == ['d', 'o', 'm']
  | _ => false

/-- The group `(\d{1,2})/` matched at the head, greedy with regex backtracking: a
two-digit day is preferred; if the slash is missing after two digits the
one-digit reading needs the second char to be the slash. -/
def matchDaySlash : List Char → Option (Nat × List Char)
  | a :: b :: c :: rest =>
    if isDigitChar a && isDigitChar b && c == '/' then
      some (10 * digitVal a + digitVal b, rest)
    else if isDigitChar a && b == '/' then some (digitVal a, c :: rest)
    else none
  | [a, b] =>
    if isDigitChar a && b == '/' then some (digitVal a, ([] : List Char)) else none
  | _ => none

/-- The group `(\d{1,2})` matched at the head (greedy; nothing required after it). -/
def matchMonthNum : List Char → Option Nat
  | a :: b :: _ =>
    if isDigitChar a then
      some (if isDigitChar b then 10 * digitVal a + digitVal b else digitVal a)
    else none
  | [a] => if isDigitChar a then some (digitVal a) else none
  | [] => none

/-- The lazy `.*?(\d{1,2})/(\d{1,2})` tail of the date pattern: scan left to
right for the first position where day/month digits match; `.` does not match
a newline, so the scan stops at `'\n'`. -/
def findDateFrom : List Char → Option (Nat × Nat)
  | [] => none
  | c :: rest =>
    match matchDaySlash (c :: rest) with
    | some (d, after) =>
      match matchMonthNum after with
      | some m => some (d, m)
      | none => if c == '\n' then none else findDateFrom rest
    | none => if c == '\n' then none else findDateFrom rest

/-- Model of `re.search` of `(lun|mar|mer|gio|ven|sab|dom).*?(\d{1,2})/(\d{1,2})`:
leftmost day-name token from which day/month digits are reachable wins. -/
def searchDatePattern : List Char → Option (Nat × Nat)
  | [] => none
  | c :: rest =>
    if isDayToken (c :: rest) then
      match findDateFrom ((c :: rest).drop 3) with
      | some dm => some dm
      | none => searchDatePattern rest
    else searchDatePattern rest

/-- One header cell: lowercase, strip, search the date pattern, infer the
year (next year when the month is before August and today is after August),
and build the date — `date()` raising `ValueError` yields no entry. -/
def headerCellDate (today : Date) (cell : String) : Option Date :=
  match searchDatePattern (stripChars (cell.data.map Char.toLower)) with
  | none => none
  | some (day, month) =>
    let year := if month < 8 ∧ 8 < today.month then today.year + 1 else today.year
    if dateValid year month day then some ⟨year, month, day⟩ else none

/-- The header scan over one row: `new_dates_found`, keyed by column index. -/
def headerScanAux (today : Date) : Nat → List (Option String) → List (Nat × Date)
  | _, [] => []
  | i, cell :: rest =>
    match cell with
    | none => headerScanAux today (i + 1) rest
    | some s =>
      match headerCellDate today s with
      | some d => (i, d) :: headerScanAux today (i + 1) rest
      | none => headerScanAux today (i + 1) rest

/-- The group `(\d{1,2}[:\.]\d{2})` matched at the head: returns the hour digits and
the minute digits.  Regex backtracking on the greedy `\d{1,2}`: if two digits
matched, the separator must follow (the one-digit reading would need the
second digit to be the separator, which it is not). -/
def matchClock : List Char → Option (List Char × List Char × List Char)
  | a :: b :: rest =>
    if isDigitChar a then
      if isDigitChar b then
        match rest with
        | c :: d :: e :: rest' =>
          if (c == ':' || c == '.') && isDigitChar d && isDigitChar e then
            some ([a, b], [d, e], rest')
          else none
        | _ => none
      else if b == ':' || b == '.' then
        match rest with
        | d :: e :: rest' =>
          if isDigitChar d && isDigitChar e then some ([a], [d, e], rest') else none
        | _ => none
      else none
    else none
  | _ => none

def skipSpaces (l : List Char) : List Char := l.dropWhile isSpaceChar

/-- The full time-range pattern `(\d{1,2}[:\.]\d{2})\s*-\s*(\d{1,2}[:\.]\d{2})`
matched at the head: start hour/minute digits and end hour/minute digits. -/
def matchTimeRangeAt (l : List Char) :
    Option (List Char × List Char × List Char × List Char) :=
  match matchClock l with
  | none => none
  | some (h1, m1, rest) =>
    match skipSpaces rest with
    | [] => none
    | c :: r2 =>
      if c = '-' then
        match matchClock (skipSpaces r2) with
        | some (h2, m2, _) => some (h1, m1, h2, m2)
        | none => none
      else none

/-- Model of `re.search` of the time-range pattern on one line (leftmost match). -/
def searchTimeRange : List Char → Option (List Char × List Char × List Char × List Char)
  | [] => none
  | c :: rest =>
    match matchTimeRangeAt (c :: rest) with
    | some g => some g
    | none => searchTimeRange rest

/-- The loop `for i in range(len(lines)-1, -1, -1)`: first time-range match scanning
the (already reversed) lines. -/
def scanTimeReversed : List (List Char) →
    Option (List Char × List Char × List Char × List Char)
  | [] => none
  | l :: rest =>
    match searchTimeRange l with
    | some g => some g
    | none => scanTimeReversed rest

/-- Numeric value of a digit string. -/
def clockVal (ds : List Char) : Nat := ds.foldl (fun a c => 10 * a + digitVal c) 0

/-- The value `(t2 - t1).total_seconds() / 3600` guarded by the two `strptime` calls:
if either time is not a valid 24-hour clock value, the `except` keeps the
default `duration = 2.0`. -/
def timeRangeDuration (h1 m1 h2 m2 : List Char) : ℚ :=
  if clockVal h1 ≤ 23 ∧ clockVal m1 ≤ 59 ∧ clockVal h2 ≤ 23 ∧ clockVal m2 ≤ 59 then
    (((clockVal h2 * 60 + clockVal m2 : Int) - (clockVal h1 * 60 + clockVal m1) : Int) : ℚ) / 60
  else 2

/-- A matched group with the `.`→`:` replacement applied. -/
def timeStr (h m : List Char) : String := String.mk (h ++ ':' :: m)

/-- Python `" ".join(...)`. -/
def joinSpace : List (List Char) → List Char
  | [] => []
  | [l] => l
  | l :: ls => l ++ ' ' :: joinSpace ls

/-- The `Lesson(...)` constructed for a parsed cell: subject from the first
line, location from `lines[1:-1]` when there are more than two lines. -/
def mkLesson (d : Date) (lines : List (List Char))
    (g : List Char × List Char × List Char × List Char) : Lesson :=
  { date := d, subject := String.mk (lines.headD []),
    start_time := timeStr g.1 g.2.1, end_time := timeStr g.2.2.1 g.2.2.2,
    location := if lines.length > 2 then String.mk (joinSpace ((lines.drop 1).dropLast))
                else "",
    duration_hours := timeRangeDuration g.1 g.2.1 g.2.2.1 g.2.2.2,
    is_supervision := false }

/-- One content cell: noise (shorter than five characters once stripped, or
no line bearing a time range) yields no lesson. -/
def parseCell (d : Date) (raw : String) : Option Lesson :=
  let text := stripChars raw.data
  if text.length < 5 then none
  else
    let lines := cellLines text
    if lines.isEmpty then none
    else
      match scanTimeReversed lines.reverse with
      | none => none
      | some g => some (mkLesson d lines g)

/-- One content row: only columns with a date in the current block and a
non-empty cell are considered, left to right. -/
def contentRowLessons (colToDate : List (Nat × Date)) :
    Nat → List (Option String) → List Lesson
  | _, [] => []
  | i, cell :: rest =>
    match cell, colToDate.lookup i with
    | some raw, some d =>
      (match parseCell d raw with
       | some l => l :: contentRowLessons colToDate (i + 1) rest
       | none => contentRowLessons colToDate (i + 1) rest)
    | _, _ => contentRowLessons colToDate (i + 1) rest

/-- The row loop of `parse_excel_schedule`: a header row replaces the
column-to-date mapping wholesale and yields no lessons; content rows are
skipped while the mapping is empty. -/
def parseRows (today : Date) :
    List (Nat × Date) → List (List (Option String)) → List Lesson
  | _, [] => []
  | colToDate, row :: rows =>
    let found := headerScanAux today 0 row
    if ! found.isEmpty then parseRows today found rows
    else if colToDate.isEmpty then parseRows today colToDate rows
    else contentRowLessons colToDate 0 row ++ parseRows today colToDate rows

/-- Function `parse_excel_schedule` from `utils.py` on the cell grid, with the value
of `date.today()` passed explicitly. -/
def parse_excel_schedule (today : Date) (grid : List (List (Option String))) :
    List Lesson :=
  parseRows today [] grid

/-- C8: a header row replaces the whole column-to-date mapping (whatever the
previous mapping was, parsing continues with exactly the dates found in this
row — a column not re-matched loses its date) and produces no lessons; and
while the mapping is empty (in particular before any header row) a content
row produces no lessons. -/
theorem header_block_scoping (today : Date) :
    (∀ (m : List (Nat × Date)) (row : List (Option String))
        (rows : List (List (Option String))),
      headerScanAux today 0 row ≠ [] →
      parseRows today m (row :: rows) = parseRows today (headerScanAux today 0 row) rows) ∧
    (∀ (row : List (Option String)) (rows : List (List (Option String))),
      headerScanAux today 0 row = [] →
      parseRows today [] (row :: rows) = parseRows today [] rows) := by
  constructor
  · intro m row rows hne
    have hf : (headerScanAux today 0 row).isEmpty = false := by
      cases h : headerScanAux today 0 row with
      | nil => exact absurd h hne
      | cons a l => rfl
    simp [parseRows, hf]
  · intro row rows hz
    simp [parseRows, hz]

def today0 : Date := ⟨2025, 10, 12⟩

/-- Witness for C8: a concrete header row wipes a stale mapping, and a
content row before any header is ignored. -/
theorem header_block_scoping_witness :
    parseRows today0 [(5, ⟨2025, 1, 1⟩)]
        [[some "lun 2/9"], [some "Anatomia\n09:00-11:00"]] =
      parseRows today0 (headerScanAux today0 0 [some "lun 2/9"])
        [[some "Anatomia\n09:00-11:00"]] ∧
    parseRows today0 [] [[some "Anatomia\n09:00-11:00"], [some "lun 2/9"]] =
      parseRows today0 [] [[some "lun 2/9"]] :=
  ⟨(header_block_scoping today0).1 [(5, ⟨2025, 1, 1⟩)] [some "lun 2/9"]
      [[some "Anatomia\n09:00-11:00"]] (by decide),
   (header_block_scoping today0).2 [some "Anatomia\n09:00-11:00"]
      [[some "lun 2/9"]] (by decide)⟩

/-- C7 (amended): for every cell turned into a `Lesson`, the subject is the
first non-empty line, and the location is the non-empty lines strictly
between the first and the LAST line joined by single spaces (empty with
fewer than three lines).  The code slices `lines[1:-1]`, so when the
time-bearing line is not the last line the location includes it — the
original "strictly between the first and the time-bearing line" is wrong. -/
theorem subject_location_from_cell (d : Date) (raw : String) (l : Lesson)
    (h : parseCell d raw = some l) :
    l.subject = String.mk ((cellLines (stripChars raw.data)).headD []) ∧
    l.location = (if (cellLines (stripChars raw.data)).length > 2 then
        String.mk (joinSpace (((cellLines (stripChars raw.data)).drop 1).dropLast))
      else "") := by
  simp only [parseCell] at h
  split at h
  · exact absurd h (by simp)
  · split at h
    · exact absurd h (by simp)
    · split at h
      · exact absurd h (by simp)
      · simp only [Option.some.injEq] at h
        subst h
        exact ⟨rfl, rfl⟩

def c7cell : String := "Chimica\n09:00-11:00\nAula 3"

/-- C7 counterexample: for the cell `"Chimica\n09:00-11:00\nAula 3"` the
time-bearing line is the second of three lines, so the claimed location
(lines strictly between the first and the time-bearing line, i.e. none)
would be empty — the code produces the time line itself as the location. -/
theorem location_includes_time_bearing_line :
    (parseCell ⟨2025, 9, 2⟩ c7cell).map Lesson.location = some "09:00-11:00" ∧
    (parseCell ⟨2025, 9, 2⟩ c7cell).map Lesson.subject = some "Chimica" ∧
    (parseCell ⟨2025, 9, 2⟩ c7cell).map Lesson.location ≠ some "" := by
  refine ⟨by decide, by decide, by decide⟩

def c7lesson : Lesson :=
  mkLesson ⟨2025, 9, 2⟩ (cellLines (stripChars c7cell.data))
    (['0', '9'], ['0', '0'], ['1', '1'], ['0', '0'])

/-- Witness for the amended C7 at a concrete cell. -/
theorem subject_location_from_cell_witness :
    c7lesson.subject = String.mk ((cellLines (stripChars c7cell.data)).headD []) ∧
    c7lesson.location = (if (cellLines (stripChars c7cell.data)).length > 2 then
        String.mk (joinSpace (((cellLines (stripChars c7cell.data)).drop 1).dropLast))
      else "") :=
  subject_location_from_cell ⟨2025, 9, 2⟩ c7cell c7lesson rfl

/-- Shape of a matched clock group: one or two hour digits, two minute digits. -/
def clockShape (hh mm : List Char) : Prop :=
  ((∃ a b, hh = [a, b] ∧ isDigitChar a = true ∧ isDigitChar b = true) ∨
   (∃ a, hh = [a] ∧ isDigitChar a = true)) ∧
  (∃ c d, mm = [c, d] ∧ isDigitChar c = true ∧ isDigitChar d = true)

theorem matchClock_spec : ∀ (l hh mm rest : List Char),
    matchClock l = some (hh, mm, rest) → clockShape hh mm := by
  intro l hh mm rest hm
  cases l with
  | nil => exact absurd hm (by simp [matchClock])
  | cons a l1 =>
  cases l1 with
  | nil => exact absurd hm (by simp [matchClock])
  | cons b r =>
  unfold matchClock at hm
  dsimp only at hm
  cases hda : isDigitChar a with
  | false => rw [hda] at hm; simp at hm
  | true =>
  rw [hda] at hm
  simp only [eq_self_iff_true, if_true] at hm
  cases hdb : isDigitChar b with
  | true =>
    rw [hdb] at hm
    simp only [eq_self_iff_true, if_true] at hm
    cases r with
    | nil => simp at hm
    | cons c r1 =>
    cases r1 with
    | nil => simp at hm
    | cons d r2 =>
    cases r2 with
    | nil => simp at hm
    | cons e r3 =>
    dsimp only at hm
    cases hcond : ((c == ':' || c == '.') && isDigitChar d && isDigitChar e) with
    | false => rw [hcond] at hm; simp at hm
    | true =>
      rw [hcond] at hm
      simp only [eq_self_iff_true, if_true, Option.some.injEq, Prod.mk.injEq] at hm
      obtain ⟨h1, h2, h3⟩ := hm
      subst h1; subst h2
      simp only [Bool.and_eq_true] at hcond
      exact ⟨Or.inl ⟨a, b, rfl, hda, hdb⟩, d, e, rfl, hcond.1.2, hcond.2⟩
  | false =>
    rw [hdb] at hm
    simp only [Bool.false_eq_true, if_false] at hm
    cases hsep : (b == ':' || b == '.') with
    | false => rw [hsep] at hm; simp at hm
    | true =>
    rw [hsep] at hm
    simp only [eq_self_iff_true, if_true] at hm
    cases r with
    | nil => simp at hm
    | cons d r1 =>
    cases r1 with
    | nil => simp at hm
    | cons e r2 =>
    dsimp only at hm
    cases hcond : (isDigitChar d && isDigitChar e) with
    | false => rw [hcond] at hm; simp at hm
    | true =>
      rw [hcond] at hm
      simp only [eq_self_iff_true, if_true, Option.some.injEq, Prod.mk.injEq] at hm
      obtain ⟨h1, h2, h3⟩ := hm
      subst h1; subst h2
      simp only [Bool.and_eq_true] at hcond
      exact ⟨Or.inr ⟨a, rfl, hda⟩, d, e, rfl, hcond.1, hcond.2⟩

theorem matchTimeRangeAt_spec (l : List Char)
    (g : List Char × List Char × List Char × List Char)
    (h : matchTimeRangeAt l = some g) :
    clockShape g.1 g.2.1 ∧ clockShape g.2.2.1 g.2.2.2 := by
  unfold matchTimeRangeAt at h
  cases hc1 : matchClock l with
  | none => rw [hc1] at h; exact absurd h (by simp)
  | some t1 =>
  obtain ⟨h1, m1, rest1⟩ := t1
  rw [hc1] at h
  dsimp only at h
  cases hss : skipSpaces rest1 with
  | nil => rw [hss] at h; exact absurd h (by simp)
  | cons c r2 =>
  rw [hss] at h
  dsimp only at h
  by_cases hc : c = '-'
  · rw [if_pos hc] at h
    cases hc2 : matchClock (skipSpaces r2) with
    | none => rw [hc2] at h; exact absurd h (by simp)
    | some t2 =>
      obtain ⟨h2, m2, rest2⟩ := t2
      rw [hc2] at h
      simp only [Option.some.injEq] at h
      subst h
      exact ⟨matchClock_spec l h1 m1 rest1 hc1,
        matchClock_spec (skipSpaces r2) h2 m2 rest2 hc2⟩
  · rw [if_neg hc] at h
    exact absurd h (by simp)

theorem searchTimeRange_spec : ∀ (l : List Char)
    (g : List Char × List Char × List Char × List Char),
    searchTimeRange l = some g → clockShape g.1 g.2.1 ∧ clockShape g.2.2.1 g.2.2.2 := by
  intro l
  induction l with
  | nil => intro g h; exact absurd h (by simp [searchTimeRange])
  | cons c rest ih =>
    intro g h
    simp only [searchTimeRange] at h
    split at h
    · rename_i g0 heq
      simp only [Option.some.injEq] at h
      subst h
      exact matchTimeRangeAt_spec _ _ heq
    · exact ih g h

theorem scanTimeReversed_spec : ∀ (ls : List (List Char))
    (g : List Char × List Char × List Char × List Char),
    scanTimeReversed ls = some g → clockShape g.1 g.2.1 ∧ clockShape g.2.2.1 g.2.2.2 := by
  intro ls
  induction ls with
  | nil => intro g h; exact absurd h (by simp [scanTimeReversed])
  | cons l rest ih =>
    intro g h
    simp only [scanTimeReversed] at h
    split at h
    · rename_i g0 heq
      simp only [Option.some.injEq] at h
      subst h
      exact searchTimeRange_spec _ _ heq
    · exact ih g h

/-- A string of the syntactic shape `\d{1,2}:\d{2}` (what the time regex can
deposit in `start_time`/`end_time` after the `.`→`:` replacement). -/
def isClockString (s : String) : Bool :=
  match s.data with
  | [a, b, ':', c, d] => isDigitChar a && isDigitChar b && isDigitChar c && isDigitChar d
  | [a, ':', c, d] => isDigitChar a && isDigitChar c && isDigitChar d
  | _ => false

/-- Hour and minute values read back from a clock-shaped string. -/
def clockStrVal (s : String) : Nat × Nat :=
  match s.data with
  | [a, b, ':', c, d] => (10 * digitVal a + digitVal b, 10 * digitVal c + digitVal d)
  | [a, ':', c, d] => (digitVal a, 10 * digitVal c + digitVal d)
  | _ => (0, 0)

/-- A well-formed 24-hour clock string: the shape above with hour at most 23
and minute at most 59 (exactly what `strptime("%H:%M")` accepts). -/
def validClock (s : String) : Bool :=
  isClockString s && decide ((clockStrVal s).1 ≤ 23 ∧ (clockStrVal s).2 ≤ 59)

/-- Minutes after midnight denoted by a clock-shaped string. -/
def clockMinutes (s : String) : Nat := (clockStrVal s).1 * 60 + (clockStrVal s).2

theorem clockShape_timeStr (hh mm : List Char) (hs : clockShape hh mm) :
    isClockString (timeStr hh mm) = true ∧
    clockStrVal (timeStr hh mm) = (clockVal hh, clockVal mm) := by
  obtain ⟨hcase, c, d, hmeq, hc, hd⟩ := hs
  subst hmeq
  rcases hcase with ⟨a, b, heq, ha, hb⟩ | ⟨a, heq, ha⟩
  · subst heq
    constructor
    · simp [isClockString, timeStr, ha, hb, hc, hd]
    · simp [clockStrVal, timeStr, clockVal]
  · subst heq
    constructor
    · simp [isClockString, timeStr, ha, hc, hd]
    · simp [clockStrVal, timeStr, clockVal]

theorem parseCell_time_facts (d : Date) (raw : String) (l : Lesson)
    (h : parseCell d raw = some l) :
    isClockString l.start_time = true ∧ isClockString l.end_time = true ∧
    (validClock l.start_time = true → validClock l.end_time = true →
      l.duration_hours =
        (((clockMinutes l.end_time : Int) - (clockMinutes l.start_time : Int) : Int) : ℚ) / 60 ∧
      (clockMinutes l.start_time < clockMinutes l.end_time → 0 < l.duration_hours)) := by
  simp only [parseCell] at h
  split at h
  · exact absurd h (by simp)
  · split at h
    · exact absurd h (by simp)
    · split at h
      · exact absurd h (by simp)
      · rename_i g hscan
        simp only [Option.some.injEq] at h
        subst h
        obtain ⟨sh1, sh2⟩ := scanTimeReversed_spec _ _ hscan
        have t1 := clockShape_timeStr g.1 g.2.1 sh1
        have t2 := clockShape_timeStr g.2.2.1 g.2.2.2 sh2
        refine ⟨t1.1, t2.1, ?_⟩
        intro hv1 hv2
        simp only [validClock, Bool.and_eq_true, decide_eq_true_eq] at hv1 hv2
        have hb1 : clockVal g.1 ≤ 23 ∧ clockVal g.2.1 ≤ 59 := by
          have := hv1.2
          rw [show (mkLesson d _ g).start_time = timeStr g.1 g.2.1 from rfl, t1.2] at this
          exact this
        have hb2 : clockVal g.2.2.1 ≤ 23 ∧ clockVal g.2.2.2 ≤ 59 := by
          have := hv2.2
          rw [show (mkLesson d _ g).end_time = timeStr g.2.2.1 g.2.2.2 from rfl, t2.2] at this
          exact this
        have hdur : (mkLesson d (cellLines (stripChars raw.data)) g).duration_hours =
            (((clockVal g.2.2.1 * 60 + clockVal g.2.2.2 : Int) -
              (clockVal g.1 * 60 + clockVal g.2.1 : Int) : Int) : ℚ) / 60 := by
          show timeRangeDuration g.1 g.2.1 g.2.2.1 g.2.2.2 = _
          rw [timeRangeDuration, if_pos ⟨hb1.1, hb1.2, hb2.1, hb2.2⟩]
        have hmin1 : clockMinutes (mkLesson d (cellLines (stripChars raw.data)) g).start_time =
            clockVal g.1 * 60 + clockVal g.2.1 := by
          show clockMinutes (timeStr g.1 g.2.1) = _
          rw [clockMinutes, t1.2]
        have hmin2 : clockMinutes (mkLesson d (cellLines (stripChars raw.data)) g).end_time =
            clockVal g.2.2.1 * 60 + clockVal g.2.2.2 := by
          show clockMinutes (timeStr g.2.2.1 g.2.2.2) = _
          rw [clockMinutes, t2.2]
        constructor
        · rw [hdur, hmin1, hmin2]
          push_cast
          ring_nf
        · intro hlt
          rw [hmin1, hmin2] at hlt
          rw [hdur]
          apply div_pos
          · have : ((clockVal g.1 * 60 + clockVal g.2.1 : Int)) <
                ((clockVal g.2.2.1 * 60 + clockVal g.2.2.2 : Int)) := by
              exact_mod_cast hlt
            have hpos : (0 : Int) < (clockVal g.2.2.1 * 60 + clockVal g.2.2.2 : Int) -
                (clockVal g.1 * 60 + clockVal g.2.1 : Int) := by omega
            exact_mod_cast hpos
          · norm_num

theorem mem_contentRowLessons (m : List (Nat × Date)) :
    ∀ (row : List (Option String)) (i : Nat) (l : Lesson),
    l ∈ contentRowLessons m i row → ∃ d raw, parseCell d raw = some l := by
  intro row
  induction row with
  | nil => intro i l h; exact absurd h (List.not_mem_nil l)
  | cons cell rest ih =>
    intro i l h
    simp only [contentRowLessons] at h
    split at h
    · rename_i raws dd hlook
      split at h
      · rename_i l0 hpc
        rcases List.mem_cons.1 h with h | h
        · exact ⟨dd, raws, by rw [hpc, h]⟩
        · exact ih (i + 1) l h
      · exact ih (i + 1) l h
    · exact ih (i + 1) l h

theorem mem_parseRows (today : Date) :
    ∀ (rows : List (List (Option String))) (m : List (Nat × Date)) (l : Lesson),
    l ∈ parseRows today m rows → ∃ d raw, parseCell d raw = some l := by
  intro rows
  induction rows with
  | nil => intro m l h; exact absurd h (List.not_mem_nil l)
  | cons row rest ih =>
    intro m l h
    simp only [parseRows] at h
    split at h
    · exact ih _ l h
    · split at h
      · exact ih _ l h
      · rcases List.mem_append.1 h with h | h
        · exact mem_contentRowLessons m row 0 l h
        · exact ih _ l h

/-- C6 (amended): every Lesson the parser produces has `start_time` and
`end_time` of the syntactic shape `\d{1,2}:\d{2}`; when both are moreover
valid 24-hour clock values, the duration equals (end − start) in hours, and
it is positive when the end is strictly after the start.  The original
unconditional invariant fails: a reversed range yields a negative duration
and an out-of-range time such as "25:00" survives in `start_time` (the
failed `strptime` only restores the default duration). -/
theorem parsed_lesson_time_invariant (today : Date)
    (grid : List (List (Option String))) :
    ∀ l ∈ parse_excel_schedule today grid,
      isClockString l.start_time = true ∧ isClockString l.end_time = true ∧
      (validClock l.start_time = true → validClock l.end_time = true →
        l.duration_hours =
          (((clockMinutes l.end_time : Int) - (clockMinutes l.start_time : Int) : Int) : ℚ) / 60 ∧
        (clockMinutes l.start_time < clockMinutes l.end_time → 0 < l.duration_hours)) := by
  intro l hl
  obtain ⟨d, raw, hpc⟩ := mem_parseRows today grid [] l hl
  exact parseCell_time_facts d raw l hpc

def badRangeCell : String := "Anatomia\nx y z\n13:30 - 09:30"

def badClockCell : String := "X y\n25:00 - 26:00"

/-- C6 counterexample: the cell `"Anatomia\nx y z\n13:30 - 09:30"` yields a
lesson with duration −4 (not > 0), and `"X y\n25:00 - 26:00"` yields a lesson
whose `start_time` is the out-of-range string "25:00". -/
theorem nonpositive_duration_and_invalid_clock :
    (parseCell ⟨2025, 9, 2⟩ badRangeCell).map Lesson.duration_hours = some (-4) ∧
    ((-4 : ℚ) < 0) ∧
    (parseCell ⟨2025, 9, 2⟩ badClockCell).map Lesson.start_time = some "25:00" ∧
    validClock "25:00" = false := by
  refine ⟨?_, by norm_num, by decide, by decide⟩
  have h1 : parseCell ⟨2025, 9, 2⟩ badRangeCell =
      some (mkLesson ⟨2025, 9, 2⟩ (cellLines (stripChars badRangeCell.data))
        (['1', '3'], ['3', '0'], ['0', '9'], ['3', '0'])) := rfl
  have h2 : (mkLesson ⟨2025, 9, 2⟩ (cellLines (stripChars badRangeCell.data))
      (['1', '3'], ['3', '0'], ['0', '9'], ['3', '0'])).duration_hours = -4 := by
    show timeRangeDuration ['1', '3'] ['3', '0'] ['0', '9'] ['3', '0'] = -4
    have e1 : clockVal ['1', '3'] = 13 := by decide
    have e2 : clockVal ['3', '0'] = 30 := by decide
    have e3 : clockVal ['0', '9'] = 9 := by decide
    rw [timeRangeDuration, e1, e2, e3, if_pos (by norm_num)]
    norm_num
  rw [h1]
  simp [h2]

def c6grid : List (List (Option String)) :=
  [[some "lun 2/9"], [some "Anatomia\n09:00-11:00"]]

def c6lesson : Lesson :=
  mkLesson ⟨2025, 9, 2⟩ (cellLines (stripChars ("Anatomia\n09:00-11:00" : String).data))
    (['0', '9'], ['0', '0'], ['1', '1'], ['0', '0'])

/-- Witness for the amended C6 at a concrete two-row grid. -/
theorem parsed_lesson_time_invariant_witness :
    isClockString c6lesson.start_time = true ∧
    isClockString c6lesson.end_time = true ∧
    c6lesson.duration_hours =
      (((clockMinutes c6lesson.end_time : Int) - (clockMinutes c6lesson.start_time : Int) : Int) : ℚ) / 60 ∧
    0 < c6lesson.duration_hours :=
  have hmem : c6lesson ∈ parse_excel_schedule today0 c6grid := by
    have hp : parse_excel_schedule today0 c6grid = [c6lesson] := rfl
    rw [hp]
    exact List.mem_singleton.2 rfl
  have h := parsed_lesson_time_invariant today0 c6grid c6lesson hmem
  have h3 := h.2.2 (by decide) (by decide)
  ⟨h.1, h.2.1, h3.1, h3.2 (by decide)⟩
